import Mathlib

/-!
Verification of the tag-master backend's core components against its
specification: the token-bucket rate limiter
(`backend/app/middleware/rate_limit.py`), the permission resolver
(`backend/app/services/permissions.py`) and the player service
(`backend/app/services/player.py`).

Floating-point token counts and timestamps are modelled as rationals;
the identifier keys are strings, as in the source. The bucket table
(a Python `defaultdict`) is modelled as a total function from
identifiers to optional buckets, where `none` means "no entry yet" and
a lookup on an absent key yields the defaultdict's factory value
(a full bucket stamped with the current time).

Database-backed services are modelled over an explicit record store:
each SQLAlchemy table becomes a list of records (UUIDs become naturals,
`deleted_at` timestamps become `Option ℚ`), and `scalar_one_or_none`
on a filtered `select` becomes `List.find?` with the row predicate.
-/

/-- Per-identifier bucket state: `(token_count, last_refill_time)`. -/
structure Bucket where
  tokens : ℚ
  last_refill : ℚ
  deriving Repr, DecidableEq

/-- State of `RateLimitMiddleware`: the bucket table plus the two
configuration fields set in `__init__`. -/
structure RateLimiter where
  buckets : String → Option Bucket
  rate_limit : ℚ
  refill_rate : ℚ

/-- `RateLimitMiddleware.__init__`: empty table,
`rate_limit = settings.rate_limit_per_minute` (the capacity) and
`refill_rate = rate_limit / 60.0`. -/
def mkRateLimiter (capacity : ℚ) : RateLimiter :=
  { buckets := fun _ => none
    rate_limit := capacity
    refill_rate := capacity / 60 }

/-- Reading `self.buckets[identifier]`: the defaultdict returns the stored
pair, or creates `(float(rate_limit), time.time())` on a miss. -/
def RateLimiter.get_bucket (rl : RateLimiter) (ident : String) (now : ℚ) : Bucket :=
  match rl.buckets ident with
  | some b => b
  | none => { tokens := rl.rate_limit, last_refill := now }

/-- `RateLimitMiddleware._check_rate_limit`: refill lazily from the elapsed
time, clamp at `rate_limit`, then either reject (storing the refilled count
unchanged) or admit (consuming one token). Returns the updated middleware
state together with the boolean the Python method returns. -/
def RateLimiter.check_rate_limit (rl : RateLimiter) (ident : String) (now : ℚ) :
    RateLimiter × Bool :=
  let b := rl.get_bucket ident now
  let time_elapsed := now - b.last_refill
  let tokens_to_add := time_elapsed * rl.refill_rate
  let tokens := min rl.rate_limit (b.tokens + tokens_to_add)
  if tokens < 1 then
    ({ rl with buckets := fun k =>
        if k = ident then some { tokens := tokens, last_refill := now }
        else rl.buckets k },
     false)
  else
    ({ rl with buckets := fun k =>
        if k = ident then some { tokens := tokens - 1, last_refill := now }
        else rl.buckets k },
     true)

/-- `RateLimitMiddleware.reset_bucket`: force the identifier's bucket back
to `(float(rate_limit), time.time())`. -/
def RateLimiter.reset_bucket (rl : RateLimiter) (ident : String) (now : ℚ) :
    RateLimiter :=
  { rl with buckets := fun k =>
      if k = ident then some { tokens := rl.rate_limit, last_refill := now }
      else rl.buckets k }

/-- The admission step exactly as §4.1 of the spec words it, acting on one
bucket `(tokens, last_refill)`: compute `elapsed = now - last_refill`,
`tokens' = min(capacity, tokens + elapsed * (capacity / 60))`; if
`tokens' < 1.0` persist `(tokens', now)` and refuse, else persist
`(tokens' - 1.0, now)` and admit. Written from the spec's words, for
comparison with `RateLimiter.check_rate_limit`. -/
def specAdmit (capacity tokens last_refill now : ℚ) : (ℚ × ℚ) × Bool :=
  let elapsed := now - last_refill
  let tokens' := min capacity (tokens + elapsed * (capacity / 60))
  if tokens' < 1 then ((tokens', now), false)
  else ((tokens' - 1, now), true)

/-- One externally triggered mutation of the limiter state: an admission
check (`_check_rate_limit`) or an administrative reset (`reset_bucket`),
stamped with the wall-clock time at which it runs. -/
inductive LimiterOp where
  | check (ident : String) (now : ℚ)
  | reset (ident : String) (now : ℚ)
  deriving Repr, DecidableEq

/-- The wall-clock time at which an operation runs. -/
def LimiterOp.time : LimiterOp → ℚ
  | .check _ now => now
  | .reset _ now => now

/-- Apply one operation to the limiter state, discarding the admission
boolean. -/
def applyOp (rl : RateLimiter) : LimiterOp → RateLimiter
  | .check ident now => (rl.check_rate_limit ident now).1
  | .reset ident now => rl.reset_bucket ident now

/-- Run a sequence of operations left to right. -/
def runOps (rl : RateLimiter) : List LimiterOp → RateLimiter
  | [] => rl
  | op :: rest => runOps (applyOp rl op) rest

/-- The operations' timestamps never go backwards, starting from `t`
(wall-clock time is monotone across a run). -/
def timesMonotone : ℚ → List LimiterOp → Bool
  | _, [] => true
  | t, op :: rest => decide (t ≤ op.time) && timesMonotone op.time rest

/-- The bucket-table invariant at time `t`: every stored bucket holds
between `0` and `rate_limit` tokens and was last stamped no later
than `t`. -/
def BucketBounds (rl : RateLimiter) (t : ℚ) : Prop :=
  ∀ ident b, rl.buckets ident = some b →
    0 ≤ b.tokens ∧ b.tokens ≤ rl.rate_limit ∧ b.last_refill ≤ t

/-- `n` consecutive admission checks for the same identifier, all issued at
the same wall-clock time `now`. -/
def checkN (rl : RateLimiter) (ident : String) (now : ℚ) : ℕ → RateLimiter
  | 0 => rl
  | n + 1 => ((checkN rl ident now n).check_rate_limit ident now).1

/-- A row of the `players` table (`app/models/player.py`): UUIDs become
naturals, `deleted_at` is `none` while the account is active. -/
structure PlayerRec where
  id : ℕ
  email : String
  password_hash : String
  deleted_at : Option ℚ
  deriving Repr, DecidableEq

/-- A row of the `leagues` table (`app/models/league.py`). -/
structure LeagueRec where
  id : ℕ
  organizer_id : ℕ
  deleted_at : Option ℚ
  deriving Repr, DecidableEq

/-- A row of the `league_assistants` table (per the
`create_league_assistants_table` migration: `player_id` and `league_id`
foreign keys). -/
structure LeagueAssistantRec where
  league_id : ℕ
  player_id : ℕ
  deriving Repr, DecidableEq

/-- A row of the `seasons` table (per the `create_seasons_table`
migration: `league_id` foreign key). -/
structure SeasonRec where
  id : ℕ
  league_id : ℕ
  deriving Repr, DecidableEq

/-- A row of the `rounds` table (`app/models/round.py` plus the
`create_rounds_table` migration: `season_id` foreign key, soft-deletable). -/
structure RoundRec where
  id : ℕ
  season_id : ℕ
  deleted_at : Option ℚ
  deriving Repr, DecidableEq

/-- The record store the services read and write. Each `select ... where p`
followed by `scalar_one_or_none()` is modelled as `List.find?` with `p`. -/
structure Database where
  players : List PlayerRec
  leagues : List LeagueRec
  league_assistants : List LeagueAssistantRec
  seasons : List SeasonRec
  rounds : List RoundRec
  deriving Repr, DecidableEq

/-- `can_manage_league` (`app/services/permissions.py`): first query the
`leagues` table for a row with this id, organized by this player and not
soft-deleted; if found return `true`, otherwise return whether a
`league_assistants` row links this player to this league id. -/
def can_manage_league (player : PlayerRec) (league_id : ℕ) (db : Database) : Bool :=
  match db.leagues.find? (fun l =>
      l.id == league_id && l.organizer_id == player.id && l.deleted_at.isNone) with
  | some _ => true
  | none =>
      (db.league_assistants.find? (fun a =>
        a.league_id == league_id && a.player_id == player.id)).isSome

/-- `can_manage_round` (`app/services/permissions.py`): look up the
non-deleted round, then its season, returning `false` as soon as either
lookup misses, and finally defer to `can_manage_league` on the season's
league id. -/
def can_manage_round (player : PlayerRec) (round_id : ℕ) (db : Database) : Bool :=
  match db.rounds.find? (fun r => r.id == round_id && r.deleted_at.isNone) with
  | none => false
  | some round_obj =>
      match db.seasons.find? (fun s => s.id == round_obj.season_id) with
      | none => false
      | some season => can_manage_league player season.league_id db

/-- `PlayerService.soft_delete_player` (`app/services/player.py`): count the
player's non-deleted leagues as organizer; if the count is positive raise
`ValueError` before any mutation (modelled as returning the store unchanged
with `false`), otherwise stamp the player's row with `deleted_at = now`
(`SoftDeleteMixin.soft_delete`) and commit, returning `true`. -/
def soft_delete_player (db : Database) (player : PlayerRec) (now : ℚ) :
    Database × Bool :=
  let active_leagues_count :=
    (db.leagues.filter (fun l =>
      l.organizer_id == player.id && l.deleted_at.isNone)).length
  if active_leagues_count > 0 then
    (db, false)
  else
    ({ db with players := db.players.map (fun p =>
        if p.id == player.id then { p with deleted_at := some now } else p) },
     true)

/-- `PlayerService.authenticate_player` (`app/services/player.py`): find the
non-deleted player row bound to the email, then verify the password against
its hash; return `none` on either failure. The bcrypt verifier
(`verify_password` in `app/services/auth.py`) is kept abstract as a
parameter, since no claim depends on the hash function itself. -/
def authenticate_player (verify_password : String → String → Bool)
    (db : Database) (email password : String) : Option PlayerRec :=
  match db.players.find? (fun p => p.email == email && p.deleted_at.isNone) with
  | none => none
  | some player =>
      if verify_password password player.password_hash then some player else none

/-! ### Helper lemmas for the rate limiter -/

lemma check_rate_limit_rate_limit (rl : RateLimiter) (ident : String) (now : ℚ) :
    (rl.check_rate_limit ident now).1.rate_limit = rl.rate_limit := by
  unfold RateLimiter.check_rate_limit
  dsimp only
  split <;> rfl

lemma check_rate_limit_refill_rate (rl : RateLimiter) (ident : String) (now : ℚ) :
    (rl.check_rate_limit ident now).1.refill_rate = rl.refill_rate := by
  unfold RateLimiter.check_rate_limit
  dsimp only
  split <;> rfl

/-- The admission boolean, expressed through the refilled token count. -/
lemma check_rate_limit_snd (rl : RateLimiter) (ident : String) (now : ℚ) :
    (rl.check_rate_limit ident now).2 =
      decide (¬ min rl.rate_limit ((rl.get_bucket ident now).tokens +
        (now - (rl.get_bucket ident now).last_refill) * rl.refill_rate) < 1) := by
  unfold RateLimiter.check_rate_limit
  dsimp only
  split <;> rename_i h <;> simp [h]

/-- The bucket table after an admission check, pointwise. -/
lemma check_rate_limit_fst_buckets (rl : RateLimiter) (ident : String) (now : ℚ)
    (k : String) :
    (rl.check_rate_limit ident now).1.buckets k =
      if k = ident then
        some (if min rl.rate_limit ((rl.get_bucket ident now).tokens +
                (now - (rl.get_bucket ident now).last_refill) * rl.refill_rate) < 1
          then { tokens := min rl.rate_limit ((rl.get_bucket ident now).tokens +
                  (now - (rl.get_bucket ident now).last_refill) * rl.refill_rate),
                 last_refill := now }
          else { tokens := min rl.rate_limit ((rl.get_bucket ident now).tokens +
                  (now - (rl.get_bucket ident now).last_refill) * rl.refill_rate) - 1,
                 last_refill := now })
      else rl.buckets k := by
  unfold RateLimiter.check_rate_limit
  dsimp only
  split <;> rename_i h <;> simp [h]

lemma applyOp_rate_limit (rl : RateLimiter) (op : LimiterOp) :
    (applyOp rl op).rate_limit = rl.rate_limit := by
  cases op with
  | check ident now => exact check_rate_limit_rate_limit rl ident now
  | reset ident now => rfl

lemma applyOp_refill_rate (rl : RateLimiter) (op : LimiterOp) :
    (applyOp rl op).refill_rate = rl.refill_rate := by
  cases op with
  | check ident now => exact check_rate_limit_refill_rate rl ident now
  | reset ident now => rfl

lemma check_preserves_bounds (rl : RateLimiter) (ident : String) (t now : ℚ)
    (hcap : 0 ≤ rl.rate_limit) (hrate : 0 ≤ rl.refill_rate)
    (hinv : BucketBounds rl t) (ht : t ≤ now) :
    BucketBounds (rl.check_rate_limit ident now).1 now := by
  have hbkt : 0 ≤ (rl.get_bucket ident now).tokens ∧
      (rl.get_bucket ident now).last_refill ≤ now := by
    unfold RateLimiter.get_bucket
    cases hb : rl.buckets ident with
    | none => exact ⟨hcap, le_refl now⟩
    | some b =>
        obtain ⟨h0, _, hle⟩ := hinv ident b hb
        exact ⟨h0, le_trans hle ht⟩
  have helapsed : 0 ≤ (now - (rl.get_bucket ident now).last_refill) * rl.refill_rate :=
    mul_nonneg (by linarith [hbkt.2]) hrate
  have htok0 : 0 ≤ min rl.rate_limit
      ((rl.get_bucket ident now).tokens +
        (now - (rl.get_bucket ident now).last_refill) * rl.refill_rate) :=
    le_min hcap (by linarith [hbkt.1])
  have htokcap : min rl.rate_limit
      ((rl.get_bucket ident now).tokens +
        (now - (rl.get_bucket ident now).last_refill) * rl.refill_rate) ≤
      rl.rate_limit := min_le_left _ _
  intro k b hkb
  revert hkb
  unfold RateLimiter.check_rate_limit
  dsimp only
  split
  · rename_i hlt
    intro hkb
    dsimp only at hkb
    by_cases hk : k = ident
    · rw [if_pos hk] at hkb
      cases hkb
      exact ⟨htok0, htokcap, le_refl now⟩
    · rw [if_neg hk] at hkb
      obtain ⟨h0, hle, hlr⟩ := hinv k b hkb
      exact ⟨h0, hle, le_trans hlr ht⟩
  · rename_i hge
    intro hkb
    dsimp only at hkb
    by_cases hk : k = ident
    · rw [if_pos hk] at hkb
      cases hkb
      have hA : 0 ≤ min rl.rate_limit
          ((rl.get_bucket ident now).tokens +
            (now - (rl.get_bucket ident now).last_refill) * rl.refill_rate) - 1 := by
        linarith [not_lt.mp hge]
      have hB : min rl.rate_limit
          ((rl.get_bucket ident now).tokens +
            (now - (rl.get_bucket ident now).last_refill) * rl.refill_rate) - 1 ≤
          rl.rate_limit := by
        linarith [htokcap]
      exact ⟨hA, hB, le_refl now⟩
  -- a check on any other key leaves that key's bucket alone
    · rw [if_neg hk] at hkb
      obtain ⟨h0, hle, hlr⟩ := hinv k b hkb
      exact ⟨h0, hle, le_trans hlr ht⟩

lemma reset_preserves_bounds (rl : RateLimiter) (ident : String) (t now : ℚ)
    (hcap : 0 ≤ rl.rate_limit) (hinv : BucketBounds rl t) (ht : t ≤ now) :
    BucketBounds (rl.reset_bucket ident now) now := by
  intro k b hkb
  unfold RateLimiter.reset_bucket at hkb
  dsimp only at hkb
  by_cases hk : k = ident
  · rw [if_pos hk] at hkb
    cases hkb
    exact ⟨hcap, le_refl _, le_refl now⟩
  · rw [if_neg hk] at hkb
    obtain ⟨h0, hle, hlr⟩ := hinv k b hkb
    exact ⟨h0, hle, le_trans hlr ht⟩

lemma runOps_bounds (ops : List LimiterOp) (rl : RateLimiter) (t : ℚ)
    (hcap : 0 ≤ rl.rate_limit) (hrate : 0 ≤ rl.refill_rate)
    (hinv : BucketBounds rl t) (hmono : timesMonotone t ops = true) :
    ∃ t', BucketBounds (runOps rl ops) t' := by
  induction ops generalizing rl t with
  | nil => exact ⟨t, hinv⟩
  | cons op rest ih =>
      simp only [timesMonotone, Bool.and_eq_true, decide_eq_true_eq] at hmono
      obtain ⟨hle, hrest⟩ := hmono
      have hinv' : BucketBounds (applyOp rl op) op.time := by
        cases op with
        | check ident now => exact check_preserves_bounds rl ident t now hcap hrate hinv hle
        | reset ident now => exact reset_preserves_bounds rl ident t now hcap hinv hle
      exact ih (applyOp rl op) op.time
        (by rw [applyOp_rate_limit]; exact hcap)
        (by rw [applyOp_refill_rate]; exact hrate) hinv' hrest

lemma runOps_rate_limit (ops : List LimiterOp) (rl : RateLimiter) :
    (runOps rl ops).rate_limit = rl.rate_limit := by
  induction ops generalizing rl with
  | nil => rfl
  | cons op rest ih => rw [runOps, ih, applyOp_rate_limit]

lemma checkN_rate_limit (rl : RateLimiter) (ident : String) (now : ℚ) (n : ℕ) :
    (checkN rl ident now n).rate_limit = rl.rate_limit := by
  induction n with
  | zero => rfl
  | succ n ih => rw [checkN, check_rate_limit_rate_limit, ih]

lemma checkN_refill_rate (rl : RateLimiter) (ident : String) (now : ℚ) (n : ℕ) :
    (checkN rl ident now n).refill_rate = rl.refill_rate := by
  induction n with
  | zero => rfl
  | succ n ih => rw [checkN, check_rate_limit_refill_rate, ih]

/-- After `k ≤ cap` same-instant checks on a fresh limiter, the bucket read
for the identifier holds exactly `cap - k` tokens, stamped at `t`. -/
lemma checkN_get_bucket (cap : ℕ) (ident : String) (t : ℚ) :
    ∀ k, k ≤ cap →
      (checkN (mkRateLimiter (cap : ℚ)) ident t k).get_bucket ident t =
        { tokens := (cap : ℚ) - k, last_refill := t } := by
  intro k
  induction k with
  | zero =>
      intro _
      show (mkRateLimiter (cap : ℚ)).get_bucket ident t = _
      unfold RateLimiter.get_bucket mkRateLimiter
      simp
  | succ k ih =>
      intro hk
      have hb := ih (Nat.le_of_succ_le hk)
      have hk1 : (k : ℚ) + 1 ≤ (cap : ℚ) := by exact_mod_cast hk
      have hmin : min ((cap : ℚ))
          (((cap : ℚ) - k) + (t - t) * (checkN (mkRateLimiter (cap : ℚ)) ident t k).refill_rate)
          = (cap : ℚ) - k := by
        rw [sub_self, zero_mul, add_zero]
        exact min_eq_right (by linarith [Nat.cast_nonneg (α := ℚ) k])
      have hnew : (checkN (mkRateLimiter (cap : ℚ)) ident t (k + 1)).buckets ident =
          some { tokens := (cap : ℚ) - (k + 1 : ℕ), last_refill := t } := by
        show ((checkN (mkRateLimiter (cap : ℚ)) ident t k).check_rate_limit ident t).1.buckets
            ident = _
        rw [check_rate_limit_fst_buckets, if_pos rfl, hb, checkN_rate_limit,
          show (mkRateLimiter (cap : ℚ)).rate_limit = (cap : ℚ) from rfl]
        dsimp only
        rw [hmin, if_neg (not_lt.mpr (by linarith))]
        have : (cap : ℚ) - k - 1 = (cap : ℚ) - (k + 1 : ℕ) := by push_cast; ring
        rw [this]
      unfold RateLimiter.get_bucket
      rw [hnew]

/-- The result of the `(k+1)`-th same-instant check on a fresh limiter:
admitted exactly when `k < cap`. -/
lemma checkN_next_admitted (cap : ℕ) (ident : String) (t : ℚ) (k : ℕ) (hk : k ≤ cap) :
    ((checkN (mkRateLimiter (cap : ℚ)) ident t k).check_rate_limit ident t).2 =
      decide (k < cap) := by
  rw [check_rate_limit_snd, checkN_get_bucket cap ident t k hk, checkN_rate_limit,
    show (mkRateLimiter (cap : ℚ)).rate_limit = (cap : ℚ) from rfl]
  dsimp only
  rw [sub_self, zero_mul, add_zero,
    min_eq_right (by linarith [Nat.cast_nonneg (α := ℚ) k] : (cap : ℚ) - k ≤ (cap : ℚ))]
  by_cases h : k < cap
  · have : ¬ ((cap : ℚ) - k < 1) := by
      have : (k : ℚ) + 1 ≤ (cap : ℚ) := by exact_mod_cast h
      linarith
    simp [h, this]
  · have hke : k = cap := le_antisymm hk (not_lt.mp h)
    subst hke
    simp

/-! ### Claim theorems for the rate limiter -/

/-- C1: for every identifier and every current time, one call to the rate
limiter's admission check behaves exactly as the spec's step: with
`refill_rate = capacity / 60` (as set at construction), the returned
admission boolean and the persisted `(tokens, last_refill)` pair for the
identifier coincide with `specAdmit` applied to the bucket read (or lazily
created) for that identifier. -/
theorem check_rate_limit_matches_spec (rl : RateLimiter)
    (hrate : rl.refill_rate = rl.rate_limit / 60) (ident : String) (now : ℚ) :
    (rl.check_rate_limit ident now).2 =
      (specAdmit rl.rate_limit (rl.get_bucket ident now).tokens
        (rl.get_bucket ident now).last_refill now).2 ∧
    (rl.check_rate_limit ident now).1.buckets ident =
      some { tokens := (specAdmit rl.rate_limit (rl.get_bucket ident now).tokens
                          (rl.get_bucket ident now).last_refill now).1.1,
             last_refill := (specAdmit rl.rate_limit (rl.get_bucket ident now).tokens
                          (rl.get_bucket ident now).last_refill now).1.2 } := by
  unfold RateLimiter.check_rate_limit specAdmit
  rw [hrate]
  dsimp only
  split <;> simp

/-- Witness for C1 at a concrete state: the freshly constructed limiter
satisfies the `refill_rate` hypothesis and its first check on an unseen
identifier matches the spec's step. -/
theorem check_rate_limit_matches_spec_witness :
    (mkRateLimiter 50).refill_rate = (mkRateLimiter 50).rate_limit / 60 ∧
    ((mkRateLimiter 50).check_rate_limit "ip:unknown" 7).2 =
      (specAdmit (mkRateLimiter 50).rate_limit
        ((mkRateLimiter 50).get_bucket "ip:unknown" 7).tokens
        ((mkRateLimiter 50).get_bucket "ip:unknown" 7).last_refill 7).2 :=
  ⟨rfl, (check_rate_limit_matches_spec (mkRateLimiter 50) rfl "ip:unknown" 7).1⟩

/-- C2: on a freshly constructed limiter with nonnegative capacity, after
any time-monotone sequence of admission checks and resets, (i) a bucket
absent from the table is read back as a lazily created full bucket
`(capacity, now)`, and (ii) every bucket stored in the table satisfies
`0 ≤ tokens ≤ capacity`. -/
theorem bucket_bounds_invariant (cap t0 : ℚ) (hcap : 0 ≤ cap)
    (ops : List LimiterOp) (hmono : timesMonotone t0 ops = true) :
    (∀ ident now, (runOps (mkRateLimiter cap) ops).buckets ident = none →
      (runOps (mkRateLimiter cap) ops).get_bucket ident now =
        { tokens := cap, last_refill := now }) ∧
    (∀ ident b, (runOps (mkRateLimiter cap) ops).buckets ident = some b →
      0 ≤ b.tokens ∧ b.tokens ≤ cap) := by
  constructor
  · intro ident now hnone
    unfold RateLimiter.get_bucket
    rw [hnone]
    show Bucket.mk ((runOps (mkRateLimiter cap) ops).rate_limit) now = Bucket.mk cap now
    rw [runOps_rate_limit]
    rfl
  · have hrate : 0 ≤ (mkRateLimiter cap).refill_rate := by
      show 0 ≤ cap / 60
      positivity
    have hinv : BucketBounds (mkRateLimiter cap) t0 := by
      intro ident b hb
      exact absurd hb (by simp [mkRateLimiter])
    obtain ⟨t', hB⟩ := runOps_bounds ops (mkRateLimiter cap) t0 hcap hrate hinv hmono
    intro ident b hb
    obtain ⟨h0, hle, _⟩ := hB ident b hb
    rw [runOps_rate_limit] at hle
    exact ⟨h0, hle⟩

/-- Witness for C2 on a concrete run (capacity 2, one admitted check and
one reset): the stored bucket for `"a"` holds `1` token, inside the
bounds. -/
theorem bucket_bounds_invariant_witness :
    (0 : ℚ) ≤ 2 ∧
    timesMonotone 0 [LimiterOp.check "a" 0, LimiterOp.reset "b" 1] = true ∧
    (0 ≤ (Bucket.mk 1 0).tokens ∧ (Bucket.mk 1 0).tokens ≤ 2) := by
  have hb : (runOps (mkRateLimiter 2)
      [LimiterOp.check "a" 0, LimiterOp.reset "b" 1]).buckets "a" =
      some (Bucket.mk 1 0) := by
    norm_num [runOps, applyOp, RateLimiter.check_rate_limit, RateLimiter.get_bucket,
      RateLimiter.reset_bucket, mkRateLimiter, min_def]
    decide
  exact ⟨by norm_num, by decide, (bucket_bounds_invariant 2 0 (by norm_num)
    [LimiterOp.check "a" 0, LimiterOp.reset "b" 1] (by decide)).2 "a"
    (Bucket.mk 1 0) hb⟩

/-- C3: on a fresh limiter with capacity at least `1`, for an identifier
with no prior bucket and all calls issued at one instant `t`, each of the
first `capacity` admission checks returns admitted and the
`(capacity+1)`-th returns not admitted. -/
theorem fresh_identifier_first_capacity_admitted (cap : ℕ) (hcap : 1 ≤ cap)
    (ident : String) (t : ℚ) :
    (∀ k, k < cap →
      ((checkN (mkRateLimiter (cap : ℚ)) ident t k).check_rate_limit ident t).2 = true) ∧
    ((checkN (mkRateLimiter (cap : ℚ)) ident t cap).check_rate_limit ident t).2 = false := by
  constructor
  · intro k hk
    rw [checkN_next_admitted cap ident t k (le_of_lt hk)]
    simp [hk]
  · rw [checkN_next_admitted cap ident t cap (le_refl cap)]
    simp

/-- Witness for C3 with capacity 2: the third same-instant check on a fresh
identifier is refused. -/
theorem fresh_identifier_first_capacity_admitted_witness :
    1 ≤ 2 ∧
    ((checkN (mkRateLimiter ((2 : ℕ) : ℚ)) "ip:10.0.0.5" 0 2).check_rate_limit
      "ip:10.0.0.5" 0).2 = false :=
  ⟨by decide, (fresh_identifier_first_capacity_admitted 2 (by decide) "ip:10.0.0.5" 0).2⟩

/-- C4: a bucket holding exactly `0` tokens, checked exactly `60` seconds
after its stamp (with `refill_rate = capacity / 60` and capacity at least
`1`), admits the request, and the stored bucket afterwards holds at least
`capacity - 1` tokens and never more than `capacity`. -/
theorem empty_bucket_refills_after_full_minute (rl : RateLimiter) (ident : String)
    (t : ℚ) (hrate : rl.refill_rate = rl.rate_limit / 60) (hcap : 1 ≤ rl.rate_limit)
    (hb : rl.buckets ident = some { tokens := 0, last_refill := t }) :
    (rl.check_rate_limit ident (t + 60)).2 = true ∧
    ∃ b, (rl.check_rate_limit ident (t + 60)).1.buckets ident = some b ∧
      rl.rate_limit - 1 ≤ b.tokens ∧ b.tokens ≤ rl.rate_limit := by
  have hgb : rl.get_bucket ident (t + 60) = { tokens := 0, last_refill := t } := by
    unfold RateLimiter.get_bucket
    rw [hb]
  have h60 : (60 : ℚ) * (rl.rate_limit / 60) = rl.rate_limit := by ring
  have htok : min rl.rate_limit ((rl.get_bucket ident (t + 60)).tokens +
      ((t + 60) - (rl.get_bucket ident (t + 60)).last_refill) * rl.refill_rate) =
      rl.rate_limit := by
    rw [hgb, hrate]
    dsimp only
    rw [zero_add, add_sub_cancel_left, h60, min_self]
  constructor
  · rw [check_rate_limit_snd, htok]
    simp only [decide_eq_true_eq]
    exact not_lt.mpr hcap
  · refine ⟨{ tokens := rl.rate_limit - 1, last_refill := t + 60 }, ?_, le_refl _,
      sub_le_self rl.rate_limit zero_le_one⟩
    rw [check_rate_limit_fst_buckets, if_pos rfl, htok, if_neg (not_lt.mpr hcap)]

/-- Witness for C4 at a concrete state: capacity 50, bucket emptied at
time 3, checked at time 63. -/
theorem empty_bucket_refills_after_full_minute_witness :
    (RateLimiter.mk (fun k => if k = "user:abc" then some (Bucket.mk 0 3) else none)
      50 (50 / 60)).refill_rate =
      (RateLimiter.mk (fun k => if k = "user:abc" then some (Bucket.mk 0 3) else none)
        50 (50 / 60)).rate_limit / 60 ∧
    ((RateLimiter.mk (fun k => if k = "user:abc" then some (Bucket.mk 0 3) else none)
      50 (50 / 60)).check_rate_limit "user:abc" (3 + 60)).2 = true :=
  ⟨rfl, (empty_bucket_refills_after_full_minute
    (RateLimiter.mk (fun k => if k = "user:abc" then some (Bucket.mk 0 3) else none)
      50 (50 / 60)) "user:abc" 3 rfl (by norm_num) (by simp)).1⟩

/-- C5: an admission check (or a reset) for identifier `a` leaves every
other identifier's table entry exactly unchanged; in particular no sequence
of checks that exhausts `a`'s bucket can change `b`'s stored token count or
refill timestamp. -/
theorem distinct_identifiers_frame (rl : RateLimiter) (a b : String) (now : ℚ)
    (hne : b ≠ a) :
    (rl.check_rate_limit a now).1.buckets b = rl.buckets b ∧
    (rl.reset_bucket a now).buckets b = rl.buckets b ∧
    ∀ n, (checkN rl a now n).buckets b = rl.buckets b := by
  refine ⟨?_, ?_, ?_⟩
  · rw [check_rate_limit_fst_buckets, if_neg hne]
  · unfold RateLimiter.reset_bucket
    simp [hne]
  · intro n
    induction n with
    | zero => rfl
    | succ n ih => rw [checkN, check_rate_limit_fst_buckets, if_neg hne, ih]

/-- Witness for C5: with two concrete distinct identifiers, a check on the
first leaves the second's (absent) entry untouched. -/
theorem distinct_identifiers_frame_witness :
    "ip:2" ≠ "ip:1" ∧
    ((mkRateLimiter 50).check_rate_limit "ip:1" 0).1.buckets "ip:2" =
      (mkRateLimiter 50).buckets "ip:2" :=
  ⟨by decide, (distinct_identifiers_frame (mkRateLimiter 50) "ip:1" "ip:2" 0
      (by decide)).1⟩

/-! ### Claim theorems for the permission resolver and the player service -/

/-- C6: `can_manage_league` returns true exactly when the player organizes a
non-deleted league record with the given id or appears in the
assistant-assignment set for that league id; and under the schema's
referential integrity (every `league_assistants.league_id` references an
existing `leagues` row), it returns false — without raising — when no league
record with that id exists. -/
theorem can_manage_league_iff (player : PlayerRec) (lid : ℕ) (db : Database)
    (hfk : ∀ a ∈ db.league_assistants, ∃ l ∈ db.leagues, l.id = a.league_id) :
    (can_manage_league player lid db = true ↔
      (∃ l ∈ db.leagues, l.id = lid ∧ l.organizer_id = player.id ∧
        l.deleted_at = none) ∨
      (∃ a ∈ db.league_assistants, a.league_id = lid ∧ a.player_id = player.id)) ∧
    ((∀ l ∈ db.leagues, l.id ≠ lid) → can_manage_league player lid db = false) := by
  constructor
  · constructor
    · intro h
      unfold can_manage_league at h
      cases hfind : db.leagues.find? (fun l =>
          l.id == lid && l.organizer_id == player.id && l.deleted_at.isNone) with
      | some l =>
          have hp := List.find?_some hfind
          have hm := List.mem_of_find?_eq_some hfind
          simp only [Bool.and_eq_true, beq_iff_eq, Option.isNone_iff_eq_none] at hp
          exact Or.inl ⟨l, hm, hp.1.1, hp.1.2, hp.2⟩
      | none =>
          rw [hfind] at h
          obtain ⟨a, ham, hpa⟩ := List.find?_isSome.mp h
          simp only [Bool.and_eq_true, beq_iff_eq] at hpa
          exact Or.inr ⟨a, ham, hpa.1, hpa.2⟩
    · intro h
      unfold can_manage_league
      cases hfind : db.leagues.find? (fun l =>
          l.id == lid && l.organizer_id == player.id && l.deleted_at.isNone) with
      | some l => rfl
      | none =>
          rcases h with hl | ha
          · obtain ⟨l, hm, h1, h2, h3⟩ := hl
            have := List.find?_eq_none.mp hfind l hm
            simp [h1, h2, h3] at this
          · obtain ⟨a, ham, h1, h2⟩ := ha
            exact List.find?_isSome.mpr ⟨a, ham, by simp [h1, h2]⟩
  · intro hno
    unfold can_manage_league
    have hfind : db.leagues.find? (fun l =>
        l.id == lid && l.organizer_id == player.id && l.deleted_at.isNone) = none := by
      rw [List.find?_eq_none]
      intro l hl
      simp only [Bool.and_eq_true, beq_iff_eq, Option.isNone_iff_eq_none]
      exact fun hcon => hno l hl hcon.1.1
    rw [hfind]
    have hfind2 : db.league_assistants.find? (fun a =>
        a.league_id == lid && a.player_id == player.id) = none := by
      rw [List.find?_eq_none]
      intro a ha
      simp only [Bool.and_eq_true, beq_iff_eq, not_and]
      intro hid
      obtain ⟨l, hl, hle⟩ := hfk a ha
      exact absurd (hle.trans hid) (hno l hl)
    rw [hfind2]
    rfl

/-- Witness for C6: a store with one non-deleted league (id 1, organizer 10)
and one assistant row satisfies referential integrity, and the organizer
can manage league 1. -/
theorem can_manage_league_iff_witness :
    (∀ a ∈ (Database.mk [] [LeagueRec.mk 1 10 none] [LeagueAssistantRec.mk 1 20]
        [] []).league_assistants,
      ∃ l ∈ (Database.mk [] [LeagueRec.mk 1 10 none] [LeagueAssistantRec.mk 1 20]
        [] []).leagues, l.id = a.league_id) ∧
    can_manage_league (PlayerRec.mk 10 "org@x" "h" none) 1
      (Database.mk [] [LeagueRec.mk 1 10 none] [LeagueAssistantRec.mk 1 20] [] [])
      = true := by
  refine ⟨by decide, ?_⟩
  exact (can_manage_league_iff (PlayerRec.mk 10 "org@x" "h" none) 1
    (Database.mk [] [LeagueRec.mk 1 10 none] [LeagueAssistantRec.mk 1 20] [] [])
    (by decide)).1.mpr
    (Or.inl ⟨LeagueRec.mk 1 10 none, by decide, rfl, rfl, rfl⟩)

/-- C7: `can_manage_round` is a total function that returns false when no
non-deleted round with the given id exists, returns false when the resolved
round's season cannot be found, and otherwise returns exactly
`can_manage_league` on the resolved season's league id. -/
theorem can_manage_round_fails_closed (player : PlayerRec) (rid : ℕ) (db : Database) :
    ((∀ r ∈ db.rounds, ¬(r.id = rid ∧ r.deleted_at = none)) →
      can_manage_round player rid db = false) ∧
    (∀ round_obj,
      db.rounds.find? (fun r => r.id == rid && r.deleted_at.isNone) = some round_obj →
      ((∀ s ∈ db.seasons, s.id ≠ round_obj.season_id) →
        can_manage_round player rid db = false) ∧
      (∀ season,
        db.seasons.find? (fun s => s.id == round_obj.season_id) = some season →
        can_manage_round player rid db = can_manage_league player season.league_id db)) := by
  refine ⟨?_, ?_⟩
  · intro hall
    have hfind : db.rounds.find? (fun r => r.id == rid && r.deleted_at.isNone) = none := by
      rw [List.find?_eq_none]
      intro r hr
      simpa using hall r hr
    simp only [can_manage_round, hfind]
  · intro round_obj hfind
    refine ⟨?_, ?_⟩
    · intro hno
      have hsea : db.seasons.find? (fun s => s.id == round_obj.season_id) = none := by
        rw [List.find?_eq_none]
        intro s hs
        simpa using hno s hs
      simp only [can_manage_round, hfind, hsea]
    · intro season hsea
      simp only [can_manage_round, hfind, hsea]

/-- Witness for C7 on an empty store: no round resolves, so the check
fails closed. -/
theorem can_manage_round_fails_closed_witness :
    (∀ r ∈ (Database.mk [] [] [] [] []).rounds, ¬(r.id = 1 ∧ r.deleted_at = none)) ∧
    can_manage_round (PlayerRec.mk 7 "p@x" "h" none) 1
      (Database.mk [] [] [] [] []) = false := by
  refine ⟨by decide, ?_⟩
  exact (can_manage_round_fails_closed (PlayerRec.mk 7 "p@x" "h" none) 1
    (Database.mk [] [] [] [] [])).1 (by decide)

/-- C8: `soft_delete_player` refuses (raises `ValueError`, modelled by the
`false` flag) exactly when the player organizes at least one non-deleted
league; on refusal the store is left entirely unchanged (in particular the
player's row keeps its `deleted_at`), and on success the player's row is
stamped soft-deleted at `now`. -/
theorem soft_delete_player_spec (db : Database) (player : PlayerRec) (now : ℚ) :
    ((soft_delete_player db player now).2 = false ↔
      ∃ l ∈ db.leagues, l.organizer_id = player.id ∧ l.deleted_at = none) ∧
    ((soft_delete_player db player now).2 = false →
      (soft_delete_player db player now).1 = db) ∧
    ((soft_delete_player db player now).2 = true →
      ∀ p ∈ (soft_delete_player db player now).1.players,
        p.id = player.id → p.deleted_at = some now) := by
  unfold soft_delete_player
  dsimp only
  split
  · rename_i hpos
    have hpos' : 0 < (db.leagues.filter (fun l =>
        l.organizer_id == player.id && l.deleted_at.isNone)).length := hpos
    rw [List.length_pos, Ne, List.filter_eq_nil_iff] at hpos'
    push_neg at hpos'
    refine ⟨?_, fun _ => rfl, fun h => absurd h (by simp)⟩
    constructor
    · intro _
      obtain ⟨l, hl, hpl⟩ := hpos'
      simp only [Bool.and_eq_true, beq_iff_eq, Option.isNone_iff_eq_none] at hpl
      exact ⟨l, hl, hpl.1, hpl.2⟩
    · intro _
      rfl
  · rename_i hneg
    refine ⟨?_, fun hfalse => absurd hfalse (by simp), fun _ => ?_⟩
    · constructor
      · intro h
        exact absurd h (by simp)
      · intro hex
        exfalso
        apply hneg
        show 0 < (db.leagues.filter (fun l =>
          l.organizer_id == player.id && l.deleted_at.isNone)).length
        rw [List.length_pos, Ne, List.filter_eq_nil_iff]
        push_neg
        obtain ⟨l, hl, h1, h2⟩ := hex
        exact ⟨l, hl, by simp [h1, h2]⟩
    · intro p hp hpid
      rw [List.mem_map] at hp
      obtain ⟨q, hq, hqe⟩ := hp
      subst hqe
      by_cases hqid : q.id = player.id
      · rw [if_pos (by simpa using hqid)]
      · rw [if_neg (by simpa using hqid)] at hpid
        exact absurd hpid hqid

/-- Witness for C8: a player organizing one active league is refused and the
store comes back unchanged. -/
theorem soft_delete_player_spec_witness :
    (soft_delete_player
      (Database.mk [PlayerRec.mk 5 "a@b" "h" none] [LeagueRec.mk 1 5 none] [] [] [])
      (PlayerRec.mk 5 "a@b" "h" none) 0).2 = false ∧
    (soft_delete_player
      (Database.mk [PlayerRec.mk 5 "a@b" "h" none] [LeagueRec.mk 1 5 none] [] [] [])
      (PlayerRec.mk 5 "a@b" "h" none) 0).1 =
      Database.mk [PlayerRec.mk 5 "a@b" "h" none] [LeagueRec.mk 1 5 none] [] [] [] :=
  ⟨by decide,
    (soft_delete_player_spec
      (Database.mk [PlayerRec.mk 5 "a@b" "h" none] [LeagueRec.mk 1 5 none] [] [] [])
      (PlayerRec.mk 5 "a@b" "h" none) 0).2.1 (by decide)⟩

/-- C9: appearing in the assistant-assignment set for a league id makes
`can_manage_league` return true, with no condition whatsoever on the league
record — in particular even when the league row with that id is
soft-deleted. -/
theorem assistant_grants_access (player : PlayerRec) (lid : ℕ) (db : Database)
    (ha : ∃ a ∈ db.league_assistants, a.league_id = lid ∧ a.player_id = player.id) :
    can_manage_league player lid db = true := by
  unfold can_manage_league
  cases hfind : db.leagues.find? (fun l =>
      l.id == lid && l.organizer_id == player.id && l.deleted_at.isNone) with
  | some l => rfl
  | none =>
      obtain ⟨a, ham, h1, h2⟩ := ha
      exact List.find?_isSome.mpr ⟨a, ham, by simp [h1, h2]⟩

/-- Witness for C9: league 1 exists only as a soft-deleted row, yet the
assigned assistant (player 20) can still manage it. -/
theorem assistant_grants_access_witness :
    (∃ a ∈ (Database.mk [] [LeagueRec.mk 1 10 (some 3)] [LeagueAssistantRec.mk 1 20]
        [] []).league_assistants, a.league_id = 1 ∧ a.player_id = 20) ∧
    can_manage_league (PlayerRec.mk 20 "as@x" "h" none) 1
      (Database.mk [] [LeagueRec.mk 1 10 (some 3)] [LeagueAssistantRec.mk 1 20] [] [])
      = true :=
  ⟨by decide,
    assistant_grants_access (PlayerRec.mk 20 "as@x" "h" none) 1
      (Database.mk [] [LeagueRec.mk 1 10 (some 3)] [LeagueAssistantRec.mk 1 20] [] [])
      (by decide)⟩

/-- C10: `authenticate_player` returns `none` whenever every account bound
to the email is soft-deleted (regardless of the password), and any returned
account is a stored, non-deleted account with that email whose hash the
verifier accepted. -/
theorem authenticate_player_spec (verify : String → String → Bool) (db : Database)
    (email password : String) :
    ((∀ p ∈ db.players, p.email = email → p.deleted_at ≠ none) →
      authenticate_player verify db email password = none) ∧
    (∀ player, authenticate_player verify db email password = some player →
      player ∈ db.players ∧ player.email = email ∧ player.deleted_at = none ∧
        verify password player.password_hash = true) := by
  constructor
  · intro hall
    unfold authenticate_player
    have hfind : db.players.find? (fun p => p.email == email && p.deleted_at.isNone)
        = none := by
      rw [List.find?_eq_none]
      intro p hp
      simp only [Bool.and_eq_true, beq_iff_eq, Option.isNone_iff_eq_none, not_and]
      exact hall p hp
    rw [hfind]
  · intro player h
    cases hfind : db.players.find? (fun p => p.email == email && p.deleted_at.isNone) with
    | none =>
        simp only [authenticate_player, hfind] at h
        exact absurd h (by simp)
    | some q =>
        simp only [authenticate_player, hfind] at h
        have hq := List.find?_some hfind
        have hm := List.mem_of_find?_eq_some hfind
        simp only [Bool.and_eq_true, beq_iff_eq, Option.isNone_iff_eq_none] at hq
        by_cases hv : verify password q.password_hash = true
        · rw [if_pos hv] at h
          cases h
          exact ⟨hm, hq.1, hq.2, hv⟩
        · rw [if_neg hv] at h
          exact absurd h (by simp)

/-- Witness for C10: the only account bound to the email is soft-deleted, so
authentication fails even with a verifier that accepts everything. -/
theorem authenticate_player_spec_witness :
    (∀ p ∈ (Database.mk [PlayerRec.mk 1 "u@x" "h" (some 2)] [] [] [] []).players,
      p.email = "u@x" → p.deleted_at ≠ none) ∧
    authenticate_player (fun _ _ => true)
      (Database.mk [PlayerRec.mk 1 "u@x" "h" (some 2)] [] [] [] []) "u@x" "pw"
      = none :=
  ⟨by decide,
    (authenticate_player_spec (fun _ _ => true)
      (Database.mk [PlayerRec.mk 1 "u@x" "h" (some 2)] [] [] [] []) "u@x" "pw").1
      (by decide)⟩
